import Mathlib

/-!
Shallow embedding of the fragment-assembler core (`src/main.py`): the `Context`
chain, the fused parser/evaluator `ExpressionParser.parse`, the fragment scanner
`interpret`, and the base `Interpreter` operations (`include`,
`include_conditional`, `sec`, `var`).

Python strings are modelled as `List Char` (`Frag`); Python exceptions are
modelled by the `Except Err` monad.  Unbounded mutual recursion
(scanner → parser → operation → scanner) is modelled with an explicit fuel
parameter; exhausting the fuel yields `Err.recursionError`, the analogue of
Python's `RecursionError` when the interpreter recursion limit is hit.
-/

/-- Failure conditions of the engine, one per Python exception that the core
can raise: `KeyError` from `Context.get`, `AttributeError` from the
`getattr` dispatch on an unknown operation name, `TypeError` from calling an
operation with the wrong number of arguments, and `RecursionError` for
exceeding the recursion limit (the fuel artifact of the embedding). -/
inductive Err where
  | keyNotFound : Err
  | unknownOperation : List Char → Err
  | arityMismatch : Err
  | recursionError : Err
  deriving Repr, DecidableEq

/-- A text fragment (a Python string), as its character sequence. -/
abbrev Frag := List Char

/-- Python's `str.strip()`: remove leading and trailing whitespace. -/
def strip (l : List Char) : List Char :=
  ((l.dropWhile Char.isWhitespace).reverse.dropWhile Char.isWhitespace).reverse

/-- The structural characters of the expression grammar: the loop
`while i < l and e[i] not in "(,)"` stops at exactly these. -/
def isStructural (c : Char) : Bool := c = '(' || c = ',' || c = ')'

/-- The head-token scan of `ExpressionParser.parse` (the `while` loop together
with the slice `e[self.idx:i]`): returns the scanned span and the remaining
input, whose first character (if any) is structural. -/
def scanHead : List Char → List Char × List Char
  | [] => ([], [])
  | c :: rest =>
    if isStructural c then ([], c :: rest)
    else
      let s := scanHead rest
      (c :: s.1, s.2)

/-- Python's `fragment_text.split(u"§")`: split on every occurrence of the
delimiter character, keeping empty pieces (`"".split` yields `[""]`). -/
def splitSec : List Char → List (List Char)
  | [] => [[]]
  | c :: rest =>
    if c = '§' then [] :: splitSec rest
    else
      match splitSec rest with
      | [] => [[c]]
      | p :: ps => (c :: p) :: ps

/-- The `Context` class: a mapping from keys to fragments with an optional
parent context for fallback lookup.  The optional `parent` field is encoded
by two constructors: `root` is a context whose parent is `None`, `child` one
whose parent is present. -/
inductive Context where
  | root (fragments : List (Frag × Frag))
  | child (parent : Context) (fragments : List (Frag × Frag))

/-- The constructor `Context(parent, fragments)`: an optional parent and the
local bindings. -/
def Context.mk (parent : Option Context) (fragments : List (Frag × Frag)) :
    Context :=
  match parent with
  | none => .root fragments
  | some p => .child p fragments

/-- Projection for the `parent` field. -/
def Context.parent : Context → Option Context
  | .root _ => none
  | .child p _ => some p

/-- Projection for the `fragments` field. -/
def Context.fragments : Context → List (Frag × Frag)
  | .root f => f
  | .child _ f => f

/-- `Context.put`: insert/overwrite a local binding.  The Python dict
assignment is modelled by shadowing: `get` reads the first matching entry. -/
def Context.put : Context → Frag → Frag → Context
  | .root f, key, frag => .root ((key, frag) :: f)
  | .child p f, key, frag => .child p ((key, frag) :: f)

/-- `Context.get`: return the local binding when present (`key in
self.fragments`), else delegate to the parent when there is one, else raise
`KeyError`. -/
def Context.get : Context → Frag → Except Err Frag
  | .root frags, key =>
    match frags.lookup key with
    | some frag => .ok frag
    | none => .error .keyNotFound
  | .child p frags, key =>
    match frags.lookup key with
    | some frag => .ok frag
    | none => p.get key

/-- Whether some context in the parent chain (the context itself, its parent,
and so on up to the root) binds `key`.  This formalizes the claims' phrase
"no context in the parent chain binds the key"; it is the specification-side
characterization against which `Context.get` is checked. -/
def Context.bindsInChain : Context → Frag → Bool
  | .root frags, key => (frags.lookup key).isSome
  | .child p frags, key => (frags.lookup key).isSome || p.bindsInChain key

/-- The extension point of the operation registry: operations added beyond the
base `Interpreter` (in the source, methods added by subclassing, e.g.
`MyInterpreter`; in the tests of the spec, test doubles such as `foo`/`bla`).
An operation receives the active context and the already-evaluated argument
values. -/
abbrev Ops := Frag → Option (Context → List Frag → Except Err Frag)

/-- `Interpreter.sec`: return the literal delimiter character. -/
def Interpreter.sec (_ctx : Context) : Frag := ['§']

/-- `Interpreter.var`: return the value bound to `key`, or the empty string
when the lookup fails with `KeyError`. -/
def Interpreter.var (ctx : Context) (key : Frag) : Except Err Frag :=
  match ctx.get key with
  | .error .keyNotFound => .ok []
  | r => r

mutual

/-- `ExpressionParser.parse`, in cursor style: the mutable index `self.idx`
into the fixed expression becomes the explicit remaining-input list; the
returned list is the input from the final index on.  Scan a head token; at
end-of-input or at `,` (consumed) or `)` (left unconsumed) return the token;
at `(` collect arguments and dispatch the named operation on them. -/
def parse (ops : Ops) (ctx : Context) (fuel : Nat) (chars : List Char) :
    Except Err (Frag × List Char) :=
  match fuel with
  | 0 => .error .recursionError
  | f + 1 =>
    let s := scanHead chars
    let v := strip s.1
    match s.2 with
    | [] => .ok (v, [])
    | c :: rest =>
      if c = ',' then .ok (v, rest)
      else if c = ')' then .ok (v, c :: rest)
      else
        match parseArgs ops ctx f rest with
        | .error e => .error e
        | .ok (args, rest2) =>
          match dispatch ops ctx f v args with
          | .error e => .error e
          | .ok r => .ok (r, rest2)

/-- The argument-collecting loop of `ExpressionParser.parse`
(`while self.idx < l and e[self.idx] != ')'`): parse argument expressions
until end-of-input or a `)` (left unconsumed) is reached. -/
def parseArgs (ops : Ops) (ctx : Context) (fuel : Nat) (chars : List Char) :
    Except Err (List Frag × List Char) :=
  match fuel with
  | 0 => .error .recursionError
  | f + 1 =>
    match chars with
    | [] => .ok ([], [])
    | c :: _ =>
      if c = ')' then .ok ([], chars)
      else
        match parse ops ctx f chars with
        | .error e => .error e
        | .ok (a, rest) =>
          match parseArgs ops ctx f rest with
          | .error e => .error e
          | .ok (as, rest2) => .ok (a :: as, rest2)

/-- The dispatch `getattr(self.interpreter, v)(self.context, *args)`: the base
`Interpreter` methods are matched by exact, case-sensitive name, then the
extension operations are consulted; an unknown name raises the analogue of
`AttributeError`, and a wrong argument count for a built-in raises the
analogue of `TypeError`. -/
def dispatch (ops : Ops) (ctx : Context) (fuel : Nat) (name : Frag)
    (args : List Frag) : Except Err Frag :=
  match fuel with
  | 0 => .error .recursionError
  | f + 1 =>
    if name = "include".toList then
      match args with
      | [key] => includeOp ops ctx f key
      | _ => .error .arityMismatch
    else if name = "include_conditional".toList then
      match args with
      | [key] =>
        match includeOp ops ctx f key with
        | .error .keyNotFound => .ok []
        | r => r
      | _ => .error .arityMismatch
    else if name = "sec".toList then
      match args with
      | [] => .ok (Interpreter.sec ctx)
      | _ => .error .arityMismatch
    else if name = "var".toList then
      match args with
      | [key] => Interpreter.var ctx key
      | _ => .error .arityMismatch
    else
      match ops name with
      | some op => op ctx args
      | none => .error (.unknownOperation name)

/-- `Interpreter.include` (named `includeOp` because `include` is reserved in
Lean): look the key up in the context — a failed lookup raises before any
recursion — then recursively scan-and-evaluate the retrieved fragment under
the same context. -/
def includeOp (ops : Ops) (ctx : Context) (fuel : Nat) (key : Frag) :
    Except Err Frag :=
  match ctx.get key with
  | .error e => .error e
  | .ok frag =>
    match fuel with
    | 0 => .error .recursionError
    | f + 1 => interpret ops ctx f frag

/-- The top-level fragment scanner `interpret`: split the text on the
delimiter and weave the pieces back together, evaluating every second piece
as an expression. -/
def interpret (ops : Ops) (ctx : Context) (fuel : Nat) (text : List Char) :
    Except Err Frag :=
  match fuel with
  | 0 => .error .recursionError
  | f + 1 => weave ops ctx f (splitSec text)

/-- The loop of `interpret` over the split pieces: append a literal piece,
then the parsed value of the next piece, until the pieces run out
(`StopIteration` is caught after either step). -/
def weave (ops : Ops) (ctx : Context) (fuel : Nat) (pieces : List (List Char)) :
    Except Err Frag :=
  match fuel with
  | 0 => .error .recursionError
  | f + 1 =>
    match pieces with
    | [] => .ok []
    | [lit] => .ok lit
    | lit :: expr :: rest =>
      match parse ops ctx f expr with
      | .error e => .error e
      | .ok (v, _) =>
        match weave ops ctx f rest with
        | .error e => .error e
        | .ok w => .ok (lit ++ v ++ w)

end

/-- `Interpreter.include_conditional`: delegate to `include`, recovering
exactly a `KeyError` (and no other failure) into the empty string.  The
`include_conditional` branch of `dispatch` computes this same function. -/
def Interpreter.include_conditional (ops : Ops) (ctx : Context) (fuel : Nat)
    (key : Frag) : Except Err Frag :=
  match includeOp ops ctx fuel key with
  | .error .keyNotFound => .ok []
  | r => r

/-- The base `Interpreter`: no operations beyond the built-ins. -/
def baseOps : Ops := fun _ => none

/-- Test doubles from the specification's examples: `foo(x) = x + "!"`,
`bla(a, b) = a + "-" + b`; a wrong argument count is Python's `TypeError`. -/
def testOps : Ops := fun name =>
  if name = "foo".toList then
    some (fun _ args =>
      match args with
      | [x] => .ok (x ++ "!".toList)
      | _ => .error .arityMismatch)
  else if name = "bla".toList then
    some (fun _ args =>
      match args with
      | [a, b] => .ok (a ++ "-".toList ++ b)
      | _ => .error .arityMismatch)
  else none

/-- An empty root context. -/
def ctx0 : Context := .mk none []

/-! ### Scanner and splitter lemmas -/

theorem scanHead_stopfree (tok : List Char) (h : ∀ a ∈ tok, isStructural a = false) :
    scanHead tok = (tok, []) := by
  induction tok with
  | nil => rfl
  | cons c rest ih =>
    simp only [scanHead, h c (List.mem_cons_self c rest), Bool.false_eq_true, if_false]
    rw [ih (fun a ha => h a (List.mem_cons_of_mem c ha))]

theorem scanHead_append_stop (tok : List Char) (c : Char) (rest : List Char)
    (htok : ∀ a ∈ tok, isStructural a = false) (hc : isStructural c = true) :
    scanHead (tok ++ c :: rest) = (tok, c :: rest) := by
  induction tok with
  | nil => simp [scanHead, hc]
  | cons b tok ih =>
    simp only [List.cons_append, scanHead, htok b (List.mem_cons_self b tok),
      Bool.false_eq_true, if_false]
    rw [show tok.append (c :: rest) = tok ++ c :: rest from rfl,
      ih (fun a ha => htok a (List.mem_cons_of_mem b ha))]

theorem splitSec_secfree (l : List Char) (h : '§' ∉ l) : splitSec l = [l] := by
  induction l with
  | nil => rfl
  | cons c rest ih =>
    have hc : ¬ c = '§' := fun hcc => h (hcc ▸ List.mem_cons_self c rest)
    simp only [splitSec, hc, if_false]
    rw [ih (fun hm => h (List.mem_cons_of_mem c hm))]

theorem splitSec_append (l r : List Char) (h : '§' ∉ l) :
    splitSec (l ++ '§' :: r) = l :: splitSec r := by
  induction l with
  | nil => simp [splitSec]
  | cons c rest ih =>
    have hc : ¬ c = '§' := fun hcc => h (hcc ▸ List.mem_cons_self c rest)
    simp only [List.cons_append, splitSec, hc, if_false]
    rw [show rest.append ('§' :: r) = rest ++ '§' :: r from rfl,
      ih (fun hm => h (List.mem_cons_of_mem c hm))]

/-! ### Unfolding lemmas for the fueled evaluator -/

theorem interpret_succ (ops : Ops) (ctx : Context) (f : Nat) (t : List Char) :
    interpret ops ctx (f + 1) t = weave ops ctx f (splitSec t) := rfl

theorem weave_nil (ops : Ops) (ctx : Context) (f : Nat) :
    weave ops ctx (f + 1) [] = .ok [] := rfl

theorem weave_single (ops : Ops) (ctx : Context) (f : Nat) (lit : List Char) :
    weave ops ctx (f + 1) [lit] = .ok lit := rfl

theorem weave_cons2 (ops : Ops) (ctx : Context) (f : Nat)
    (lit e : List Char) (rest : List (List Char)) :
    weave ops ctx (f + 1) (lit :: e :: rest) =
      match parse ops ctx f e with
      | .error err => .error err
      | .ok (v, _) =>
        match weave ops ctx f rest with
        | .error err => .error err
        | .ok w => .ok (lit ++ v ++ w) := rfl

theorem parse_composite (ops : Ops) (ctx : Context) (f : Nat)
    (name tail : List Char)
    (hname : ∀ a ∈ name, isStructural a = false) (hstrip : strip name = name) :
    parse ops ctx (f + 1) (name ++ '(' :: tail) =
      match parseArgs ops ctx f tail with
      | .error e => .error e
      | .ok (args, rest2) =>
        match dispatch ops ctx f name args with
        | .error e => .error e
        | .ok r => .ok (r, rest2) := by
  have hs := scanHead_append_stop name '(' tail hname (by decide)
  simp [parse, hs, hstrip]

theorem parse_atomic_rparen (ops : Ops) (ctx : Context) (f : Nat)
    (tok rest : List Char) (htok : ∀ a ∈ tok, isStructural a = false) :
    parse ops ctx (f + 1) (tok ++ ')' :: rest) = .ok (strip tok, ')' :: rest) := by
  have hs := scanHead_append_stop tok ')' rest htok (by decide)
  simp [parse, hs]

theorem parseArgs_rparen (ops : Ops) (ctx : Context) (f : Nat) (rest : List Char) :
    parseArgs ops ctx (f + 1) (')' :: rest) = .ok ([], ')' :: rest) := rfl

theorem parseArgs_single_atomic (ops : Ops) (ctx : Context) (f : Nat)
    (key : List Char) (hkey : ∀ a ∈ key, isStructural a = false) (hne : key ≠ []) :
    parseArgs ops ctx (f + 2) (key ++ [')']) = .ok ([strip key], [')']) := by
  obtain ⟨k0, krest, rfl⟩ := List.exists_cons_of_ne_nil hne
  have hk0 : ¬ k0 = ')' := by
    have := hkey k0 (List.mem_cons_self k0 krest)
    intro hh; rw [hh] at this; simp [isStructural] at this
  have hp := parse_atomic_rparen ops ctx f (k0 :: krest) [] hkey
  simp only [List.cons_append] at hp
  simp only [List.cons_append, parseArgs, hk0, if_false]
  rw [hp]
  simp

theorem dispatch_include (ops : Ops) (ctx : Context) (f : Nat) (key : Frag) :
    dispatch ops ctx (f + 1) ("include".toList) [key] = includeOp ops ctx f key := rfl

theorem dispatch_include_conditional (ops : Ops) (ctx : Context) (f : Nat) (key : Frag) :
    dispatch ops ctx (f + 1) ("include_conditional".toList) [key] =
      Interpreter.include_conditional ops ctx f key := rfl

theorem dispatch_unknown (ops : Ops) (ctx : Context) (f : Nat) (name : Frag)
    (args : List Frag)
    (h1 : name ≠ "include".toList) (h2 : name ≠ "include_conditional".toList)
    (h3 : name ≠ "sec".toList) (h4 : name ≠ "var".toList)
    (hops : ops name = none) :
    dispatch ops ctx (f + 1) name args = .error (.unknownOperation name) := by
  simp only [dispatch, h1, h2, h3, h4, if_false, hops]

theorem parse_call1 (ops : Ops) (ctx : Context) (f : Nat) (opname key : List Char)
    (hop : ∀ a ∈ opname, isStructural a = false) (hstrip : strip opname = opname)
    (hkey : ∀ a ∈ key, isStructural a = false) (hne : key ≠ []) :
    parse ops ctx (f + 3) (opname ++ '(' :: (key ++ [')'])) =
      match dispatch ops ctx (f + 2) opname [strip key] with
      | .error e => .error e
      | .ok r => .ok (r, [')']) := by
  have h := parse_composite ops ctx (f + 2) opname (key ++ [')']) hop hstrip
  rw [show (f + 3) = (f + 2) + 1 from rfl, h,
    parseArgs_single_atomic ops ctx f key hkey hne]

/-! ### Context lookup lemmas -/

theorem Context.get_local (c : Context) (key v : Frag)
    (h : c.fragments.lookup key = some v) : c.get key = .ok v := by
  cases c with
  | root frags => simp only [Context.fragments] at h; simp [Context.get, h]
  | child p frags => simp only [Context.fragments] at h; simp [Context.get, h]

theorem Context.get_fallback (c : Context) (key : Frag)
    (h : c.fragments.lookup key = none) (p : Context) (hp : c.parent = some p) :
    c.get key = p.get key := by
  cases c with
  | root frags => simp [Context.parent] at hp
  | child q frags =>
    simp only [Context.parent, Option.some.injEq] at hp
    simp only [Context.fragments] at h
    rw [← hp]
    simp [Context.get, h]

theorem Context.get_notFound_iff (c : Context) (key : Frag) :
    c.get key = .error Err.keyNotFound ↔ c.bindsInChain key = false := by
  induction c with
  | root frags =>
    cases hl : frags.lookup key with
    | some v => simp [Context.get, Context.bindsInChain, hl]
    | none => simp [Context.get, Context.bindsInChain, hl]
  | child p frags ih =>
    cases hl : frags.lookup key with
    | some v => simp [Context.get, Context.bindsInChain, hl]
    | none =>
      simp only [Context.get, Context.bindsInChain, hl, Option.isSome_none,
        Bool.false_or]
      exact ih

/-! ### Claims -/

/-- C1: the parser evaluates a composite's arguments eagerly, left to right,
and then invokes the operation on the evaluated values; with `foo(x) = x+"!"`
and `bla(a,b) = a+"-"+b`, `§bla(blubb, foo(bar))§` yields `"blubb-bar!"`.
The first conjunct confirms the claim's example.  The second conjunct
documents the code bug that refutes the universal claim: on
`bla(foo(bar), blubb)` the parser never consumes the `)` of the nested
composite `foo(bar)`, the enclosing argument loop exits on that `)`, and
`bla` is dispatched with only the single argument `"bar!"` (Python raises
`TypeError`) instead of the two arguments `"bar!"` and `"blubb"`. -/
theorem parse_eager_evaluation_c1 :
    interpret testOps ctx0 100 ("§bla(blubb, foo(bar))§".toList) = .ok ("blubb-bar!".toList) ∧
    parse testOps ctx0 100 ("bla(foo(bar), blubb)".toList) = .error Err.arityMismatch :=
  ⟨rfl, rfl⟩

/-- C2: `Context.get` returns the locally bound value when the key is bound
locally, otherwise delegates to the parent's `get`; it fails with
`KeyNotFound` exactly when no context in the parent chain binds the key. -/
theorem Context_get_spec_c2 (c : Context) (key : Frag) :
    (∀ v, c.fragments.lookup key = some v → c.get key = .ok v) ∧
    (c.fragments.lookup key = none →
      ∀ p, c.parent = some p → c.get key = p.get key) ∧
    (c.get key = .error Err.keyNotFound ↔ c.bindsInChain key = false) :=
  ⟨fun v hv => Context.get_local c key v hv,
    fun h p hp => Context.get_fallback c key h p hp,
    Context.get_notFound_iff c key⟩

/-- Witness for C2: for a child context with no local binding the lookup
falls through to the parent, and an empty root context fails. -/
theorem Context_get_spec_c2_witness :
    (Context.mk (some (Context.mk none [("k".toList, "v".toList)])) []).get ("k".toList)
      = .ok ("v".toList) ∧
    (Context.mk none []).get ("q".toList) = .error Err.keyNotFound := by
  constructor
  · have h := (Context_get_spec_c2
      (Context.mk (some (Context.mk none [("k".toList, "v".toList)])) []) ("k".toList)).2.1
      rfl (Context.mk none [("k".toList, "v".toList)]) rfl
    rw [h]
    rfl
  · exact (Context_get_spec_c2 (Context.mk none []) ("q".toList)).2.2.mpr rfl

/-- C3: the claim says a text with an odd number of delimiters fails with a
MalformedExpression condition.  The code defines no such condition and does
not fail: the trailing unmatched span is evaluated as an expression and its
result appended.  On `"a§b"` the code returns `"ab"`; on `"a§sec()"` the
trailing span is even actively evaluated, returning `"a§"`. -/
theorem interpret_odd_delimiters_c3 :
    interpret baseOps ctx0 100 ("a§b".toList) = .ok ("ab".toList) ∧
    interpret baseOps ctx0 100 ("a§sec()".toList) = .ok ("a§".toList) :=
  ⟨rfl, rfl⟩

/-- C7: for every context and every text containing no delimiter character,
`interpret` returns the text unchanged (first conjunct); consequently any
already-evaluated output with no remaining delimiters is a fixed point of
`interpret` (second conjunct, idempotence). -/
theorem interpret_identity_c7 (ops : Ops) (ctx : Context) (f : Nat) :
    (∀ text : List Char, '§' ∉ text → interpret ops ctx (f + 2) text = .ok text) ∧
    (∀ (g : Nat) (text out : List Char), interpret ops ctx g text = .ok out →
      '§' ∉ out → interpret ops ctx (f + 2) out = .ok out) := by
  have hid : ∀ text : List Char, '§' ∉ text →
      interpret ops ctx (f + 2) text = .ok text := by
    intro text h
    rw [show f + 2 = (f + 1) + 1 from rfl, interpret_succ, splitSec_secfree text h,
      weave_single]
  exact ⟨hid, fun g text out _ hout => hid out hout⟩

/-- Witness for C7: identity on a delimiter-free text, and idempotence on the
delimiter-free output of an evaluation. -/
theorem interpret_identity_c7_witness :
    interpret baseOps ctx0 2 ("no delimiters here".toList) = .ok ("no delimiters here".toList) ∧
    interpret baseOps ctx0 2 ("xy".toList) = .ok ("xy".toList) := by
  constructor
  · exact (interpret_identity_c7 baseOps ctx0 0).1 ("no delimiters here".toList) (by decide)
  · exact (interpret_identity_c7 baseOps ctx0 0).2 100 ("x§var(k)§y".toList) ("xy".toList) rfl
      (by decide)

/-- C8: for every context (and any extension registry, which cannot shadow
the built-ins), evaluating the text `"§sec()§"` yields exactly the single
delimiter character. -/
theorem interpret_sec_escape_c8 (ops : Ops) (ctx : Context) (f : Nat) :
    interpret ops ctx (f + 9) ("§sec()§".toList) = .ok ['§'] := rfl

/-- C9: `include_conditional` returns the empty string whenever `include`
fails with `KeyNotFound`, wherever in the recursive evaluation the failure
arose (first conjunct); in particular (second conjunct) for a context that
does bind the requested key `"a"` to a fragment whose evaluation fails only
because of a nested `include` of the unbound key `"missing"`, the partially
evaluated output `"partial "` is discarded and the result is the empty
string. -/
theorem include_conditional_recovers_c9 :
    (∀ (ops : Ops) (ctx : Context) (f : Nat) (key : Frag),
      includeOp ops ctx f key = .error Err.keyNotFound →
      Interpreter.include_conditional ops ctx f key = .ok []) ∧
    (∀ f : Nat,
      Interpreter.include_conditional baseOps
        (Context.mk none [("a".toList, "partial §include(missing)§".toList)])
        (f + 9) ("a".toList) = .ok [] ∧
      (Context.mk none [("a".toList, "partial §include(missing)§".toList)]).get
        "a".toList = .ok ("partial §include(missing)§".toList) ∧
      includeOp baseOps
        (Context.mk none [("a".toList, "partial §include(missing)§".toList)])
        (f + 9) ("a".toList) = .error Err.keyNotFound) := by
  constructor
  · intro ops ctx f key h
    simp only [Interpreter.include_conditional, h]
  · intro f
    exact ⟨rfl, rfl, rfl⟩

/-- Witness for C9: recovery applied at an unbound key of the empty context. -/
theorem include_conditional_recovers_c9_witness :
    Interpreter.include_conditional baseOps ctx0 5 ("missing".toList) = .ok [] :=
  include_conditional_recovers_c9.1 baseOps ctx0 5 ("missing".toList) rfl

/-- C4 counterexample: the claim says that when the input ends before the
matching `)` the parser fails with a MalformedExpression condition and does
not dispatch.  On `"bla(a,b"` (with the two-argument test double `bla`) the
code defines no such condition, does not fail, and dispatches `bla` with the
two collected arguments, returning `"a-b"`. -/
theorem parse_unclosed_paren_counterexample_c4 :
    parse testOps ctx0 100 ("bla(a,b".toList) = .ok ("a-b".toList, []) := rfl

/-- C4 amended: when a composite's argument list is opened with `(` and the
input ends before the matching `)` (the argument loop returns with the input
exhausted), `parse` does not fail with any malformed-input condition; it
dispatches the operation with the arguments collected so far, and returns
whatever the dispatch returns. -/
theorem parse_unclosed_paren_dispatches_c4 (ops : Ops) (ctx : Context) (f : Nat)
    (name tail : List Char) (args : List Frag)
    (hname : ∀ a ∈ name, isStructural a = false) (hstrip : strip name = name)
    (hargs : parseArgs ops ctx (f + 1) tail = .ok (args, [])) :
    parse ops ctx (f + 2) (name ++ '(' :: tail) =
      match dispatch ops ctx (f + 1) name args with
      | .error e => .error e
      | .ok r => .ok (r, []) := by
  rw [show f + 2 = (f + 1) + 1 from rfl,
    parse_composite ops ctx (f + 1) name tail hname hstrip, hargs]

/-- Witness for C4 amended: `"bla(a,b"` dispatches `bla` on `["a", "b"]`. -/
theorem parse_unclosed_paren_dispatches_c4_witness :
    parse testOps ctx0 5 ("bla".toList ++ '(' :: "a,b".toList) = .ok ("a-b".toList, []) := by
  have h := parse_unclosed_paren_dispatches_c4 testOps ctx0 3 ("bla".toList) ("a,b".toList)
    ["a".toList, "b".toList] (by decide) (by decide) rfl
  exact h.trans (by rfl)

/-- C5: for every context in whose entire parent chain `key` is unbound (and
every nonempty plain key token), evaluating `§include(key)§` fails with
`KeyNotFound` while evaluating `§include_conditional(key)§` succeeds and
returns the empty string. -/
theorem include_vs_conditional_c5 (ops : Ops) (ctx : Context) (f : Nat)
    (key : List Char)
    (hkey : ∀ a ∈ key, isStructural a = false ∧ a ≠ '§')
    (hstrip : strip key = key) (hne : key ≠ [])
    (hget : ctx.get key = .error Err.keyNotFound) :
    interpret ops ctx (f + 9)
      ('§' :: (("include".toList ++ '(' :: (key ++ [')'])) ++ '§' :: []))
      = .error Err.keyNotFound ∧
    interpret ops ctx (f + 9)
      ('§' :: (("include_conditional".toList ++ '(' :: (key ++ [')'])) ++ '§' :: []))
      = .ok [] := by
  have hkey1 : ∀ a ∈ key, isStructural a = false := fun a ha => (hkey a ha).1
  have hknosec : '§' ∉ key := fun hm => (hkey '§' hm).2 rfl
  have hmem : ∀ opname : List Char, '§' ∉ opname →
      '§' ∉ (opname ++ '(' :: (key ++ [')'])) := by
    intro opname hop hm
    rcases List.mem_append.mp hm with h | h
    · exact hop h
    · rcases List.mem_cons.mp h with h | h
      · exact absurd h (by decide)
      · rcases List.mem_append.mp h with h | h
        · exact hknosec h
        · exact absurd h (by decide)
  have hpieces : ∀ opname : List Char, '§' ∉ opname →
      splitSec ('§' :: ((opname ++ '(' :: (key ++ [')'])) ++ '§' :: [])) =
        [[], opname ++ '(' :: (key ++ [')']), []] := by
    intro opname hop
    rw [show splitSec ('§' :: ((opname ++ '(' :: (key ++ [')'])) ++ '§' :: [])) =
      [] :: splitSec ((opname ++ '(' :: (key ++ [')'])) ++ '§' :: []) from by
        simp [splitSec]]
    rw [splitSec_append _ _ (hmem opname hop)]
    rfl
  constructor
  · rw [show f + 9 = (f + 8) + 1 from rfl, interpret_succ,
      hpieces ("include".toList) (by decide)]
    rw [show f + 8 = (f + 7) + 1 from rfl, weave_cons2]
    have hp := parse_call1 ops ctx (f + 4) ("include".toList) key (by decide) (by decide)
      hkey1 hne
    rw [show (f + 4) + 3 = f + 7 from rfl] at hp
    rw [hp, hstrip]
    rw [show (f + 4) + 2 = (f + 5) + 1 from rfl, dispatch_include]
    have hio : includeOp ops ctx (f + 5) key = .error Err.keyNotFound := by
      simp only [includeOp, hget]
    rw [hio]
  · rw [show f + 9 = (f + 8) + 1 from rfl, interpret_succ,
      hpieces ("include_conditional".toList) (by decide)]
    rw [show f + 8 = (f + 7) + 1 from rfl, weave_cons2]
    have hp := parse_call1 ops ctx (f + 4) ("include_conditional".toList) key (by decide)
      (by decide) hkey1 hne
    rw [show (f + 4) + 3 = f + 7 from rfl] at hp
    rw [hp, hstrip]
    rw [show (f + 4) + 2 = (f + 5) + 1 from rfl, dispatch_include_conditional]
    have hio : includeOp ops ctx (f + 5) key = .error Err.keyNotFound := by
      simp only [includeOp, hget]
    have hic : Interpreter.include_conditional ops ctx (f + 5) key = .ok [] := by
      simp only [Interpreter.include_conditional, hio]
    rw [hic]
    rw [show f + 7 = (f + 6) + 1 from rfl, weave_single]
    rfl

/-- Witness for C5: the empty root context binds nothing, so `§include(k)§`
fails and `§include_conditional(k)§` yields the empty string. -/
theorem include_vs_conditional_c5_witness :
    interpret baseOps ctx0 9
      ('§' :: (("include".toList ++ '(' :: ("k".toList ++ [')'])) ++ '§' :: []))
      = .error Err.keyNotFound ∧
    interpret baseOps ctx0 9
      ('§' :: (("include_conditional".toList ++ '(' :: ("k".toList ++ [')'])) ++ '§' :: []))
      = .ok [] :=
  include_vs_conditional_c5 baseOps ctx0 0 ("k".toList) (by decide) (by decide)
    (by decide) rfl

/-- C6: for every composite expression whose head token (after trimming) does
not name a registered operation — the registry is consulted by exact,
case-sensitive match, first against the built-ins, then against the
extension registry — `parse` fails with `UnknownOperation` (first conjunct);
the failure propagates to the top level of the evaluation pass (second
conjunct, the fragment scanner), and it is not recovered anywhere by
default: even `include_conditional`, the only recovery point, lets it
through (third conjunct). -/
theorem parse_unknown_operation_c6 (ops : Ops) (ctx : Context) (f : Nat)
    (name tail : List Char) (args : List Frag) (rest : List Char)
    (hname : ∀ a ∈ name, isStructural a = false ∧ a ≠ '§')
    (hstrip : strip name = name)
    (h1 : name ≠ "include".toList) (h2 : name ≠ "include_conditional".toList)
    (h3 : name ≠ "sec".toList) (h4 : name ≠ "var".toList)
    (hops : ops name = none)
    (htail : parseArgs ops ctx (f + 1) tail = .ok (args, rest))
    (htailsec : '§' ∉ tail) :
    parse ops ctx (f + 2) (name ++ '(' :: tail) = .error (.unknownOperation name) ∧
    interpret ops ctx (f + 4) ('§' :: ((name ++ '(' :: tail) ++ '§' :: []))
      = .error (.unknownOperation name) ∧
    Interpreter.include_conditional ops
      (Context.mk none [("k".toList, '§' :: ((name ++ '(' :: [')']) ++ '§' :: []))])
      (f + 9) ("k".toList) = .error (.unknownOperation name) := by
  have hname1 : ∀ a ∈ name, isStructural a = false := fun a ha => (hname a ha).1
  have hnosec : '§' ∉ name := fun hm => (hname '§' hm).2 rfl
  have hp1 : parse ops ctx (f + 2) (name ++ '(' :: tail)
      = .error (.unknownOperation name) := by
    rw [show f + 2 = (f + 1) + 1 from rfl,
      parse_composite ops ctx (f + 1) name tail hname1 hstrip]
    simp only [htail]
    simp only [dispatch_unknown ops ctx f name args h1 h2 h3 h4 hops]
  refine ⟨hp1, ?_, ?_⟩
  · have hsec : '§' ∉ (name ++ '(' :: tail) := by
      intro hm
      rcases List.mem_append.mp hm with h | h
      · exact hnosec h
      · rcases List.mem_cons.mp h with h | h
        · exact absurd h (by decide)
        · exact htailsec h
    rw [show f + 4 = (f + 3) + 1 from rfl, interpret_succ]
    rw [show splitSec ('§' :: ((name ++ '(' :: tail) ++ '§' :: [])) =
      [] :: splitSec ((name ++ '(' :: tail) ++ '§' :: []) from by simp [splitSec]]
    rw [splitSec_append _ _ hsec]
    rw [show splitSec ([] : List Char) = [[]] from rfl]
    rw [show f + 3 = (f + 2) + 1 from rfl, weave_cons2, hp1]
  · have hsec : '§' ∉ (name ++ '(' :: [')']) := by
      intro hm
      rcases List.mem_append.mp hm with h | h
      · exact hnosec h
      · rcases List.mem_cons.mp h with h | h
        · exact absurd h (by decide)
        · exact absurd h (by decide)
    have hget : (Context.mk none
        [("k".toList, '§' :: ((name ++ '(' :: [')']) ++ '§' :: []))]).get ("k".toList)
        = .ok ('§' :: ((name ++ '(' :: [')']) ++ '§' :: [])) := by
      simp [Context.mk, Context.get]
    have hp2 : parse ops (Context.mk none
        [("k".toList, '§' :: ((name ++ '(' :: [')']) ++ '§' :: []))]) (f + 6)
        (name ++ '(' :: [')']) = .error (.unknownOperation name) := by
      rw [show f + 6 = (f + 5) + 1 from rfl,
        parse_composite _ _ (f + 5) name [')'] hname1 hstrip]
      simp only [parseArgs_rparen _ _ (f + 4)]
      simp only [dispatch_unknown _ _ (f + 4) name [] h1 h2 h3 h4 hops]
    have hint : interpret ops (Context.mk none
        [("k".toList, '§' :: ((name ++ '(' :: [')']) ++ '§' :: []))]) (f + 8)
        ('§' :: ((name ++ '(' :: [')']) ++ '§' :: []))
        = .error (.unknownOperation name) := by
      rw [show f + 8 = (f + 7) + 1 from rfl, interpret_succ]
      rw [show splitSec ('§' :: ((name ++ '(' :: [')']) ++ '§' :: [])) =
        [] :: splitSec ((name ++ '(' :: [')']) ++ '§' :: []) from by simp [splitSec]]
      rw [splitSec_append _ _ hsec]
      rw [show splitSec ([] : List Char) = [[]] from rfl]
      rw [show f + 7 = (f + 6) + 1 from rfl, weave_cons2, hp2]
    have hio : includeOp ops (Context.mk none
        [("k".toList, '§' :: ((name ++ '(' :: [')']) ++ '§' :: []))]) (f + 9)
        "k".toList = .error (.unknownOperation name) := by
      simp only [includeOp, hget]
      exact hint
    simp only [Interpreter.include_conditional, hio]

/-- Witness for C6: `Include` differs from `include` only by case and is not
registered, so parsing `Include(x)` fails with `UnknownOperation` and the
failure propagates. -/
theorem parse_unknown_operation_c6_witness :
    parse baseOps ctx0 3 ("Include".toList ++ '(' :: "x)".toList)
      = .error (.unknownOperation ("Include".toList)) ∧
    Interpreter.include_conditional baseOps
      (Context.mk none [("k".toList, '§' :: (("Include".toList ++ '(' :: [')']) ++ '§' :: []))])
      10 ("k".toList) = .error (.unknownOperation ("Include".toList)) := by
  have h := parse_unknown_operation_c6 baseOps ctx0 1 ("Include".toList) ("x)".toList)
    ["x".toList] [')'] (by decide) (by decide) (by decide) (by decide) (by decide)
    (by decide) rfl rfl (by decide)
  exact ⟨h.1, h.2.2⟩

/-- C10: `interpret` performs a single splitting pass: the evaluated value of
an expression span is concatenated into the output verbatim — even when it
contains delimiter characters, as the output of `sec` does — and scanning
continues only on the remainder of the original text, never on the value. -/
theorem interpret_single_pass_c10 (ops : Ops) (ctx : Context) (f : Nat)
    (lit e rest : List Char) (v : Frag) (rem : List Char)
    (hlit : '§' ∉ lit) (he : '§' ∉ e)
    (hparse : parse ops ctx (f + 1) e = .ok (v, rem)) :
    interpret ops ctx (f + 3) (lit ++ '§' :: (e ++ '§' :: rest)) =
      match interpret ops ctx (f + 2) rest with
      | .error err => .error err
      | .ok w => .ok (lit ++ v ++ w) := by
  rw [show f + 3 = ((f + 1) + 1) + 1 from rfl]
  rw [show f + 2 = (f + 1) + 1 from rfl]
  rw [interpret_succ, interpret_succ]
  rw [splitSec_append lit _ hlit, splitSec_append e rest he]
  rw [weave_cons2]
  simp only [hparse]

/-- Witness for C10: in `"a§sec()§b"` the delimiter produced by `sec` is
emitted verbatim and not re-scanned, giving `"a§b"`. -/
theorem interpret_single_pass_c10_witness :
    interpret baseOps ctx0 6 ("a".toList ++ '§' :: ("sec()".toList ++ '§' :: "b".toList))
      = .ok ("a§b".toList) := by
  have h := interpret_single_pass_c10 baseOps ctx0 3 ("a".toList) ("sec()".toList)
    "b".toList ['§'] [')'] (by decide) (by decide) rfl
  exact h.trans (by rfl)
